import Mathlib

/-!
Verification of the barcode-aware read-counting core of
`src/python3/HTSeq/scripts/count_with_barcodes.py`.

The Python function `count_reads_with_barcodes` is shallowly embedded below.
Stateful Python constructs become explicit state passing:
the nested `defaultdict(lambda: defaultdict(Counter))` count table becomes
insertion-ordered association lists (preserving Python dict/Counter insertion
order, which matters for the UMI majority-rule collapse), lazily evaluated
generators over CIGAR operations become lists of `Option GenomicInterval`
(a `none` element models the `ValueError` that `invert_strand` raises on an
interval with unknown strand, surfacing only when the resolver consumes the
element, exactly as the Python generator does), and fallible paths
(`sys.exit`, uncaught exceptions, `KeyError`) are modelled with
`Except`/`Option`.
-/

namespace HTSeqBC

/-- Strand of a genomic interval: `+`, `-`, or unknown (`.`). -/
inductive Strand
  | plus
  | minus
  | unknown
  deriving DecidableEq

/-- `HTSeq.GenomicInterval`: chromosome, coordinates and strand. -/
structure GenomicInterval where
  chrom : String
  lo : Int
  hi : Int
  strand : Strand
  deriving DecidableEq

/-- `invert_strand` (lines 19-27): copy with the strand flipped;
`none` models the `ValueError` raised on an unknown strand. -/
def invert_strand (iv : GenomicInterval) : Option GenomicInterval :=
  match iv.strand with
  | .plus => some { iv with strand := .minus }
  | .minus => some { iv with strand := .plus }
  | .unknown => none

/-- One CIGAR operation of an alignment record: its type character,
its size, and the reference interval it covers (`co.ref_iv`). -/
structure CigarOp where
  type : Char
  size : Nat
  ref_iv : GenomicInterval
  deriving DecidableEq

/-- CIGAR match characters (line 128): `com = ('M', '=', 'X')`. -/
def com : List Char := ['M', '=', 'X']

/-- An alignment record as consumed by `count_reads_with_barcodes`.
`NH` models the result of `r.optional_field("NH")`: `none` means the tag is
absent, in which case the Python call raises `KeyError`.  `optional_fields`
is the tag/value list scanned by `identify_barcodes`. -/
structure AlignmentRecord where
  aligned : Bool
  not_primary_alignment : Bool
  supplementary : Bool
  aQual : Int
  optional_fields : List (String × String)
  NH : Option Int
  cigar : List CigarOp
  deriving DecidableEq

/-- A unit of the input stream: a single-end record, or a pair of
optional mates (either may be `None`). -/
inductive RecordUnit
  | single (r : AlignmentRecord)
  | pair (r1 r2 : Option AlignmentRecord)
  deriving DecidableEq

/-- The configuration consumed by the counting core. -/
structure Params where
  stranded : String
  overlap_mode : String
  multimapped_mode : String
  secondary_alignment_mode : String
  supplementary_alignment_mode : String
  minaqual : Int
  cb_tag : String
  ub_tag : String
  deriving DecidableEq

/-- A counting category: one of the five fixed exclusion tokens, or a
feature identifier. -/
inductive Category
  | not_aligned
  | alignment_not_unique
  | too_low_aQual
  | no_feature
  | ambiguous
  | feature (id : String)
  deriving DecidableEq

/-- The external feature index: `chrom_known c` models
`c in features.chrom_vectors`, and `steps iv` models the sequence of
feature sets `fs2` yielded by `features[iv].steps()`. -/
structure FeatureIndex where
  chrom_known : String → Bool
  steps : GenomicInterval → List (Finset String)

/-! ## Barcode identification (`identify_barcodes`, lines 66-86) -/

/-- The loop body of `identify_barcodes`: scan tag/value pairs, recording
the cell barcode (`cbt`) and the UMI (`ubt`) and counting matches in
`nbar`; return as soon as `nbar` reaches 2. -/
def scanBarcodes (cbt ubt : String) :
    List (String × String) → Option String → Option String → Nat →
    Option String × Option String
  | [], c, u, _ => (c, u)
  | (tag, val) :: rest, c, u, nbar =>
    if tag = cbt then
      if nbar + 1 = 2 then (some val, u)
      else scanBarcodes cbt ubt rest (some val) u (nbar + 1)
    else if tag = ubt then
      if nbar + 1 = 2 then (c, some val)
      else scanBarcodes cbt ubt rest c (some val) (nbar + 1)
    else scanBarcodes cbt ubt rest c u nbar

/-- The optional-field lists of the present mates of a unit, in scan order. -/
def unitFields : RecordUnit → List (String × String)
  | .single r => r.optional_fields
  | .pair r1 r2 =>
    (match r1 with | some a => a.optional_fields | none => []) ++
    (match r2 with | some b => b.optional_fields | none => [])

/-- `identify_barcodes(r)`: returns `(cell, umi)`. -/
def identify_barcodes (cbt ubt : String) (u : RecordUnit) :
    Option String × Option String :=
  scanBarcodes cbt ubt (unitFields u) none none 0

/-! ## Interval extraction (lines 194-221) -/

/-- The CIGAR operations contributing to feature lookup:
`co.type in com and co.size > 0`. -/
def matchOps (r : AlignmentRecord) : List CigarOp :=
  r.cigar.filter (fun co => com.contains co.type && decide (0 < co.size))

/-- `(co.ref_iv for co in r.cigar if co.type in com and co.size > 0)`. -/
def plainIvs (r : AlignmentRecord) : List (Option GenomicInterval) :=
  (matchOps r).map (fun co => some co.ref_iv)

/-- `(invert_strand(co.ref_iv) for co in r.cigar if ...)`; an element that
is `none` reproduces the `ValueError` raised lazily by the generator. -/
def invertedIvs (r : AlignmentRecord) : List (Option GenomicInterval) :=
  (matchOps r).map (fun co => invert_strand co.ref_iv)

/-- Single-end interval sequence (lines 194-200); a paired-end mate 1
contributes the same sequence (lines 202-208). -/
def singleIvSeq (stranded : String) (r : AlignmentRecord) :
    List (Option GenomicInterval) :=
  if stranded ≠ "reverse" then plainIvs r else invertedIvs r

/-- Paired-end mate 2 interval sequence (lines 211-221). -/
def mate2IvSeq (stranded : String) (r : AlignmentRecord) :
    List (Option GenomicInterval) :=
  if stranded ≠ "reverse" then invertedIvs r else plainIvs r

/-- Contribution of one optional mate: absent or unaligned mates
contribute no intervals. -/
def mateContrib (f : AlignmentRecord → List (Option GenomicInterval)) :
    Option AlignmentRecord → List (Option GenomicInterval)
  | some a => if a.aligned then f a else []
  | none => []

/-- The paired-end interval sequence `iv_seq` (lines 202-221):
mate 1 part chained with mate 2 part. -/
def pairIvSeq (stranded : String) (r1 r2 : Option AlignmentRecord) :
    List (Option GenomicInterval) :=
  mateContrib (singleIvSeq stranded) r1 ++ mateContrib (mate2IvSeq stranded) r2

/-! ## Overlap resolution (lines 258-313) -/

/-- Outcome of the overlap-combination loops. `illegal` models
`sys.exit("Illegal overlap mode.")`; `strandError` the `ValueError`
surfacing from the interval generator; `unknownChrom` the raised
`UnknownChrom`; `resolved fs` the accumulator `fs` after the loop
(`none` = Python `None`). -/
inductive ROut
  | illegal
  | strandError
  | unknownChrom
  | resolved (fs : Option (Finset String))
  deriving DecidableEq

/-- The `union` loop (lines 259-265): `fs` starts as the empty set and
absorbs every step's feature set. -/
def unionLoop (idx : FeatureIndex) :
    List (Option GenomicInterval) → Finset String → ROut
  | [], fs => .resolved (some fs)
  | none :: _, _ => .strandError
  | some iv :: rest, fs =>
    if idx.chrom_known iv.chrom then
      unionLoop idx rest ((idx.steps iv).foldl (fun a fs2 => a ∪ fs2) fs)
    else .unknownChrom

/-- One step of the intersection fold (lines 272-278): a step
participates when its feature set is non-empty or the mode is
`intersection-strict`; the first participating step initialises the
accumulator, later ones intersect into it. -/
def interStep (strict : Bool) (acc : Option (Finset String))
    (fs2 : Finset String) : Option (Finset String) :=
  if 0 < fs2.card ∨ strict = true then
    some (match acc with | none => fs2 | some f => f ∩ fs2)
  else acc

/-- The intersection-mode loop (lines 266-278): accumulator starts as
`None`. -/
def interLoop (strict : Bool) (idx : FeatureIndex) :
    List (Option GenomicInterval) → Option (Finset String) → ROut
  | [], fs => .resolved fs
  | none :: _, _ => .strandError
  | some iv :: rest, fs =>
    if idx.chrom_known iv.chrom then
      interLoop strict idx rest ((idx.steps iv).foldl (interStep strict) fs)
    else .unknownChrom

/-- Mode dispatch of the overlap resolver (lines 258-280). -/
def resolveOverlap (mode : String) (idx : FeatureIndex)
    (ivs : List (Option GenomicInterval)) : ROut :=
  if mode = "union" then unionLoop idx ivs ∅
  else if mode = "intersection-strict" ∨ mode = "intersection-nonempty" then
    interLoop (decide (mode = "intersection-strict")) idx ivs none
  else .illegal

/-- A computable enumeration of a feature set (Python `list(fs)`; the
set's iteration order is unspecified there, alphabetical here). -/
def fsList (f : Finset String) : List String := f.sort (fun a b => a ≤ b)

/-- The category increments recorded for a resolved feature set
(lines 282-306), in the order the Python code performs them:
empty or unset → `__no_feature`; more than one feature → `__ambiguous`;
then the multimap section adds feature increments (the single feature
under mode `none`, every member under mode `all`); an unrecognized
multimap mode reaches `sys.exit` (only when the set is non-empty). -/
def categoriesOf (mm : String) (fso : Option (Finset String)) :
    Except String (List Category) :=
  match fso with
  | none => .ok [.no_feature]
  | some f =>
    if f.card = 0 then .ok [.no_feature]
    else
      let audit : List Category := if 1 < f.card then [.ambiguous] else []
      if mm = "none" then
        .ok (audit ++ (if f.card = 1 then (fsList f).map .feature else []))
      else if mm = "all" then .ok (audit ++ (fsList f).map .feature)
      else .error "Illegal multimap mode."

/-- The whole `try ... except UnknownChrom` block (lines 258-313):
`UnknownChrom` resolves the unit to a single `__no_feature` increment;
`sys.exit` and the strand `ValueError` are fatal. -/
def resolveUnit (p : Params) (idx : FeatureIndex)
    (ivs : List (Option GenomicInterval)) : Except String (List Category) :=
  match resolveOverlap p.overlap_mode idx ivs with
  | .illegal => .error "Illegal overlap mode."
  | .strandError => .error "Illegal strand"
  | .unknownChrom => .ok [.no_feature]
  | .resolved fso => categoriesOf p.multimapped_mode fso

/-! ## Per-unit classification and processing (lines 163-313) -/

/-- The net effect of one record/pair on the count table:
`dropped` = `continue` with no increment (secondary/supplementary
filters); `counted cats` = the categories incremented for this unit's
`(cell, umi)`, in order; `fatal` = an uncaught exception or `sys.exit`. -/
inductive StepOut
  | dropped
  | counted (cats : List Category)
  | fatal (msg : String)
  deriving DecidableEq

/-- `r.optional_field("NH") > 1` guarded by `except KeyError: pass`
for a single-end record: `false` when the tag is absent. -/
def nhGt1 (r : AlignmentRecord) : Bool :=
  match r.NH with
  | some n => decide (1 < n)
  | none => false

/-- The paired-end NH condition (lines 240-241) with Python's
short-circuit evaluation: `none` means a consulted mate lacks the NH
tag, so the `KeyError` aborts the whole check (`except KeyError: pass`);
`some b` means the condition evaluated to `b`. -/
def pairNH (r1 r2 : Option AlignmentRecord) : Option Bool :=
  match r1 with
  | some a =>
    match a.NH with
    | none => none
    | some n =>
      if 1 < n then some true
      else
        match r2 with
        | some b =>
          match b.NH with
          | none => none
          | some m => some (decide (1 < m))
        | none => some false
  | none =>
    match r2 with
    | some b =>
      match b.NH with
      | none => none
      | some m => some (decide (1 < m))
    | none => some false

/-- Whether an optional mate is present and aligned. -/
def presAligned : Option AlignmentRecord → Bool
  | some a => a.aligned
  | none => false

/-- Whether an optional mate is present and flagged secondary. -/
def presSecondary : Option AlignmentRecord → Bool
  | some a => a.not_primary_alignment
  | none => false

/-- Whether an optional mate is present and flagged supplementary. -/
def presSupplementary : Option AlignmentRecord → Bool
  | some a => a.supplementary
  | none => false

/-- Whether an optional mate is present with quality below threshold. -/
def presLowQual (minq : Int) : Option AlignmentRecord → Bool
  | some a => decide (a.aQual < minq)
  | none => false

/-- Single-end processing of one record (lines 163-200 followed by the
resolution block): the check order is not-aligned, secondary,
supplementary, NH, quality, overlap resolution. -/
def processSingle (p : Params) (idx : FeatureIndex) (r : AlignmentRecord) :
    StepOut :=
  if ¬ r.aligned then .counted [.not_aligned]
  else if p.secondary_alignment_mode = "ignore" ∧ r.not_primary_alignment then
    .dropped
  else if p.supplementary_alignment_mode = "ignore" ∧ r.supplementary then
    .dropped
  else
    let nhCats : List Category :=
      if nhGt1 r then [.alignment_not_unique] else []
    if nhGt1 r ∧ p.multimapped_mode = "none" then .counted nhCats
    else if r.aQual < p.minaqual then .counted (nhCats ++ [.too_low_aQual])
    else
      match resolveUnit p idx (singleIvSeq p.stranded r) with
      | .error m => .fatal m
      | .ok cats => .counted (nhCats ++ cats)

/-- Paired-end processing of one pair (lines 201-256 followed by the
resolution block).  The pair counts as `__not_aligned` exactly when
mate 2 is absent/unaligned and mate 1 is absent/unaligned (lines
222-228). -/
def processPair (p : Params) (idx : FeatureIndex)
    (r1 r2 : Option AlignmentRecord) : StepOut :=
  if ¬ presAligned r2 ∧ ¬ presAligned r1 then .counted [.not_aligned]
  else if p.secondary_alignment_mode = "ignore" ∧
      (presSecondary r1 ∨ presSecondary r2) then .dropped
  else if p.supplementary_alignment_mode = "ignore" ∧
      (presSupplementary r1 ∨ presSupplementary r2) then .dropped
  else
    let nhHit : Bool := decide (pairNH r1 r2 = some true)
    let nhCats : List Category :=
      if nhHit then [.alignment_not_unique] else []
    if nhHit ∧ p.multimapped_mode = "none" then .counted nhCats
    else if presLowQual p.minaqual r1 ∨ presLowQual p.minaqual r2 then
      .counted (nhCats ++ [.too_low_aQual])
    else
      match resolveUnit p idx (pairIvSeq p.stranded r1 r2) with
      | .error m => .fatal m
      | .ok cats => .counted (nhCats ++ cats)

/-- Processing of one unit of the stream. -/
def processUnit (p : Params) (idx : FeatureIndex) : RecordUnit → StepOut
  | .single r => processSingle p idx r
  | .pair r1 r2 => processPair p idx r1 r2

/-- `true` exactly when the unit is discarded by the
secondary/supplementary ignore filters. -/
def isDroppedB : StepOut → Bool
  | .dropped => true
  | _ => false

/-! ## The count table (`counts`, line 150) -/

/-- One `(cell, umi)` bucket: a `Counter` as an insertion-ordered
association list from category to count. -/
abbrev Bucket := List (Category × Nat)

/-- One cell's sub-table: umi → bucket, insertion-ordered. -/
abbrev UmiTable := List (Option String × Bucket)

/-- The full table: cell → umi → category → count, insertion-ordered. -/
abbrev CountTable := List (Option String × UmiTable)

/-- First-match association-list lookup (Python dict access). -/
def alookup {α : Type} [DecidableEq α] {β : Type} :
    List (α × β) → α → Option β
  | [], _ => none
  | (k, v) :: rest, a => if k = a then some v else alookup rest a

/-- `Counter[c] += 1`: bump an existing entry in place, or append a new
entry with count 1 (Python dicts preserve insertion order). -/
def bumpBucket (c : Category) : Bucket → Bucket
  | [] => [(c, 1)]
  | (c', n) :: rest =>
    if c' = c then (c', n + 1) :: rest else (c', n) :: bumpBucket c rest

/-- `counts[cb][ub][c] += 1` at the umi layer (defaultdict: missing umi
keys are created on first access). -/
def bumpUmi (ub : Option String) (c : Category) : UmiTable → UmiTable
  | [] => [(ub, bumpBucket c [])]
  | (ub', b) :: rest =>
    if ub' = ub then (ub', bumpBucket c b) :: rest
    else (ub', b) :: bumpUmi ub c rest

/-- `counts[cb][ub][c] += 1` at the cell layer. -/
def bumpTable (cb ub : Option String) (c : Category) : CountTable → CountTable
  | [] => [(cb, bumpUmi ub c [])]
  | (cb', t) :: rest =>
    if cb' = cb then (cb', bumpUmi ub c t) :: rest
    else (cb', t) :: bumpTable cb ub c rest

/-- Total count stored in one bucket. -/
def bucketSum (b : Bucket) : Nat := (b.map Prod.snd).sum

/-- The sum over all categories of `CountTable[cb][ub][*]`
(0 when the keys are absent). -/
def tableSum (t : CountTable) (cb ub : Option String) : Nat :=
  match alookup t cb with
  | none => 0
  | some umis =>
    match alookup umis ub with
    | none => 0
    | some b => bucketSum b

/-- The scan over the input stream (lines 152-313): each unit's category
increments are applied to its `(cell, umi)` bucket in order; a fatal
outcome aborts the scan (`Except.error`). -/
def scan (p : Params) (idx : FeatureIndex) :
    List RecordUnit → CountTable → Except String CountTable
  | [], t => .ok t
  | u :: rest, t =>
    match processUnit p idx u with
    | .dropped => scan p idx rest t
    | .fatal m => .error m
    | .counted cats =>
      let bc := identify_barcodes p.cb_tag p.ub_tag u
      scan p idx rest (cats.foldl (fun acc c => bumpTable bc.1 bc.2 c acc) t)

/-! ## UMI collapse (lines 330-342) -/

/-- The maximum count in a bucket (0 for an empty bucket). -/
def bucketMax (b : Bucket) : Nat := b.foldl (fun m q => max m q.2) 0

/-- `udic.most_common(1)[0][0]`: `Counter.most_common(1)` reduces to
Python `max` with the count as key, which returns the first maximal item
in insertion order; `none` models the `IndexError` on an empty bucket. -/
def mostCommon1 (b : Bucket) : Option Category :=
  (b.find? (fun q => q.2 == bucketMax b)).map Prod.fst

/-- The per-cell collapse loop (lines 334-336): each umi bucket bumps its
majority category once into the cell's counter. -/
def collapseCell : UmiTable → Bucket → Option Bucket
  | [], acc => some acc
  | (_, b) :: rest, acc =>
    match mostCommon1 b with
    | none => none
    | some w => collapseCell rest (bumpBucket w acc)

/-- Python 3 `sorted` on the cell keys (line 331): a list of length > 1
that contains `None` raises `TypeError` (modelled as `none`), since
`None` compares with neither strings nor `None`; otherwise the keys are
sorted ascending. -/
def pySorted (ks : List (Option String)) : Option (List (Option String)) :=
  if ks.length ≤ 1 then some ks
  else if none ∈ ks then none
  else some (((ks.filterMap id).insertionSort (fun a b => a ≤ b)).map some)

/-- The loop `for cb in cbs` of the collapse pass. -/
def collapseAll (T : CountTable) :
    List (Option String) → Option (List (Option String × Bucket))
  | [] => some []
  | cb :: rest =>
    match alookup T cb with
    | none => none
    | some umis =>
      match collapseCell umis [] with
      | none => none
      | some cc =>
        match collapseAll T rest with
        | none => none
        | some out => some ((cb, cc) :: out)

/-- The whole collapse pass (lines 330-342), returning
`(cell_barcodes, counts_noumi)`; `none` models an uncaught exception
(`TypeError` from `sorted`, or `IndexError` on an empty bucket). -/
def collapse (T : CountTable) :
    Option (List (Option String) × List (Option String × Bucket)) :=
  match pySorted (T.map Prod.fst) with
  | none => none
  | some cbs =>
    match collapseAll T cbs with
    | none => none
    | some out => some (cbs, out)

/-! ## Theorems -/

/-- The feature set denoted by a resolver accumulator, an unset
accumulator (`None`) denoting the empty set. -/
def optFS : Option (Finset String) → Finset String
  | none => ∅
  | some f => f

/-- The feature set computed by the resolver, an unset accumulator
denoting the empty set. -/
def resultFS : ROut → Finset String
  | .resolved fso => optFS fso
  | _ => ∅

theorem interStep_true_none (f : Finset String) :
    interStep true none f = some f := by
  simp [interStep]

theorem interStep_true_some (g f : Finset String) :
    interStep true (some g) f = some (g ∩ f) := by
  simp [interStep]

theorem interStep_false_pos (acc : Option (Finset String)) (f : Finset String)
    (h : 0 < f.card) :
    interStep false acc f =
      some (match acc with | none => f | some g => g ∩ f) := by
  simp only [interStep]
  rw [if_pos (Or.inl h)]

theorem interStep_false_neg (acc : Option (Finset String)) (f : Finset String)
    (h : ¬ 0 < f.card) :
    interStep false acc f = acc := by
  simp only [interStep]
  rw [if_neg]
  rintro (hor | hor)
  · exact h hor
  · cases hor

theorem unionLoop_known (idx : FeatureIndex) :
    ∀ (ivs : List GenomicInterval),
    (∀ iv ∈ ivs, idx.chrom_known iv.chrom = true) → ∀ acc,
    unionLoop idx (ivs.map some) acc =
      .resolved (some (((ivs.map idx.steps).flatten).foldl (fun a b => a ∪ b) acc))
  | [], _, acc => by simp [unionLoop]
  | iv :: rest, h, acc => by
    rw [List.map_cons, List.map_cons, List.flatten_cons, List.foldl_append]
    show (if idx.chrom_known iv.chrom = true then _ else ROut.unknownChrom) = _
    rw [if_pos (h iv (by simp))]
    exact unionLoop_known idx rest (fun x hx => h x (by simp [hx])) _

theorem interLoop_known (strict : Bool) (idx : FeatureIndex) :
    ∀ (ivs : List GenomicInterval),
    (∀ iv ∈ ivs, idx.chrom_known iv.chrom = true) → ∀ acc,
    interLoop strict idx (ivs.map some) acc =
      .resolved (((ivs.map idx.steps).flatten).foldl (interStep strict) acc)
  | [], _, acc => by simp [interLoop]
  | iv :: rest, h, acc => by
    rw [List.map_cons, List.map_cons, List.flatten_cons, List.foldl_append]
    show (if idx.chrom_known iv.chrom = true then _ else ROut.unknownChrom) = _
    rw [if_pos (h iv (by simp))]
    exact interLoop_known strict idx rest (fun x hx => h x (by simp [hx])) _

theorem interStep_strict_mono (f : Finset String)
    {a b : Option (Finset String)}
    (h1 : optFS a ⊆ optFS b) (h2 : a = none → b = none) :
    optFS (interStep true a f) ⊆ optFS (interStep false b f) ∧
      (interStep true a f = none → interStep false b f = none) := by
  refine ⟨?_, ?_⟩
  · by_cases hc : 0 < f.card
    · match a, b with
      | none, none =>
        rw [interStep_true_none, interStep_false_pos _ _ hc]
      | none, some g => exact absurd (h2 rfl) (by simp)
      | some g, none =>
        have hg : g ⊆ (∅ : Finset String) := h1
        rw [interStep_true_some, interStep_false_pos _ _ hc]
        intro x hx
        exact absurd (hg (Finset.mem_inter.1 hx).1) (by simp)
      | some g, some k =>
        have hg : g ⊆ k := h1
        rw [interStep_true_some, interStep_false_pos _ _ hc]
        intro x hx
        exact Finset.mem_inter.2
          ⟨hg (Finset.mem_inter.1 hx).1, (Finset.mem_inter.1 hx).2⟩
    · have hf : f = ∅ := by
        simpa [Finset.card_eq_zero] using Nat.eq_zero_of_not_pos hc
      rw [interStep_false_neg _ _ hc]
      match a with
      | none =>
        rw [interStep_true_none]
        intro x hx
        exact absurd hx (by simp [optFS, hf])
      | some g =>
        rw [interStep_true_some]
        intro x hx
        exact absurd hx (by simp [optFS, hf])
  · intro hh
    match a with
    | none => exact Option.noConfusion (interStep_true_none f ▸ hh)
    | some g => exact Option.noConfusion (interStep_true_some g f ▸ hh)

theorem interFold_strict_mono (L : List (Finset String)) :
    ∀ {a b : Option (Finset String)},
    optFS a ⊆ optFS b → (a = none → b = none) →
    optFS (L.foldl (interStep true) a) ⊆ optFS (L.foldl (interStep false) b) := by
  induction L with
  | nil => intro a b h1 _; simpa using h1
  | cons f rest ih =>
    intro a b h1 h2
    have step := interStep_strict_mono f h1 h2
    exact ih step.1 step.2

theorem interFold_union_mono (L : List (Finset String)) :
    ∀ {b : Option (Finset String)} {u : Finset String},
    optFS b ⊆ u →
    optFS (L.foldl (interStep false) b) ⊆ L.foldl (fun a c => a ∪ c) u := by
  induction L with
  | nil => intro b u h; simpa using h
  | cons f rest ih =>
    intro b u h
    apply ih
    by_cases hc : 0 < f.card
    · rw [interStep_false_pos _ _ hc]
      match b with
      | none => exact fun x hx => Finset.mem_union.2 (Or.inr hx)
      | some g =>
        exact fun x hx =>
          Finset.mem_union.2 (Or.inl (h (Finset.mem_inter.1 hx).1))
    · rw [interStep_false_neg _ _ hc]
      exact fun x hx => Finset.mem_union.2 (Or.inl (h hx))

theorem resolveOverlap_union_eq (idx : FeatureIndex)
    (ivs : List (Option GenomicInterval)) :
    resolveOverlap "union" idx ivs = unionLoop idx ivs ∅ := rfl

theorem resolveOverlap_strict_eq (idx : FeatureIndex)
    (ivs : List (Option GenomicInterval)) :
    resolveOverlap "intersection-strict" idx ivs =
      interLoop true idx ivs none := by
  simp [resolveOverlap]

theorem resolveOverlap_nonempty_eq (idx : FeatureIndex)
    (ivs : List (Option GenomicInterval)) :
    resolveOverlap "intersection-nonempty" idx ivs =
      interLoop false idx ivs none := by
  simp [resolveOverlap]

/-- C3: for a fixed interval sequence and feature index on which no
`UnknownChrom` condition arises, the feature set computed in mode
`intersection-strict` is a subset of the one computed in mode
`intersection-nonempty`, which is a subset of the one computed in mode
`union` (an unset accumulator denoting the empty set). -/
theorem C3_mode_monotonicity (idx : FeatureIndex) (ivs : List GenomicInterval)
    (h : ∀ iv ∈ ivs, idx.chrom_known iv.chrom = true) :
    resultFS (resolveOverlap "intersection-strict" idx (ivs.map some)) ⊆
      resultFS (resolveOverlap "intersection-nonempty" idx (ivs.map some)) ∧
    resultFS (resolveOverlap "intersection-nonempty" idx (ivs.map some)) ⊆
      resultFS (resolveOverlap "union" idx (ivs.map some)) := by
  rw [resolveOverlap_union_eq, resolveOverlap_strict_eq,
    resolveOverlap_nonempty_eq, unionLoop_known idx ivs h ∅,
    interLoop_known true idx ivs h none, interLoop_known false idx ivs h none]
  constructor
  · exact interFold_strict_mono _ (by simp [optFS]) (fun _ => rfl)
  · exact interFold_union_mono _ (by simp [optFS])

/-- Witness for C3 at a concrete index and interval list. -/
theorem C3_mode_monotonicity_witness :
    resultFS (resolveOverlap "intersection-strict"
        ⟨fun c => c = "c1", fun _ => [{"A"}, {"A", "B"}]⟩
        ([(⟨"c1", 0, 5, .plus⟩ : GenomicInterval)].map some)) ⊆
      resultFS (resolveOverlap "intersection-nonempty"
        ⟨fun c => c = "c1", fun _ => [{"A"}, {"A", "B"}]⟩
        ([(⟨"c1", 0, 5, .plus⟩ : GenomicInterval)].map some)) ∧
    resultFS (resolveOverlap "intersection-nonempty"
        ⟨fun c => c = "c1", fun _ => [{"A"}, {"A", "B"}]⟩
        ([(⟨"c1", 0, 5, .plus⟩ : GenomicInterval)].map some)) ⊆
      resultFS (resolveOverlap "union"
        ⟨fun c => c = "c1", fun _ => [{"A"}, {"A", "B"}]⟩
        ([(⟨"c1", 0, 5, .plus⟩ : GenomicInterval)].map some)) :=
  C3_mode_monotonicity ⟨fun c => c = "c1", fun _ => [{"A"}, {"A", "B"}]⟩
    [⟨"c1", 0, 5, .plus⟩] (by intro iv hiv; simp at hiv; simp [hiv])

/-! ### C9: paired-end interval extraction -/

/-- The spec's description of one mate's contribution: the intervals of
matching-type CIGAR operations with size > 0, strand-inverted when
`inv` holds. -/
def mateIvsSpec (inv : Bool) (a : AlignmentRecord) :
    List (Option GenomicInterval) :=
  (matchOps a).map
    (fun co => if inv then invert_strand co.ref_iv else some co.ref_iv)

/-- The spec's description of the paired-end interval sequence: mate 1's
intervals unmodified unless `stranded = "reverse"` (then inverted),
mate 2's intervals inverted unless `stranded = "reverse"` (then
unmodified); an absent or unaligned mate contributes nothing. -/
def pairIvSeqSpec (stranded : String) (r1 r2 : Option AlignmentRecord) :
    List (Option GenomicInterval) :=
  (match r1 with
   | some a =>
     if a.aligned then mateIvsSpec (decide (stranded = "reverse")) a else []
   | none => []) ++
  (match r2 with
   | some b =>
     if b.aligned then mateIvsSpec (!decide (stranded = "reverse")) b else []
   | none => [])

theorem singleIvSeq_eq_spec (stranded : String) (a : AlignmentRecord) :
    singleIvSeq stranded a = mateIvsSpec (decide (stranded = "reverse")) a := by
  by_cases h : stranded = "reverse"
  · simp [singleIvSeq, mateIvsSpec, invertedIvs, h]
  · simp [singleIvSeq, mateIvsSpec, plainIvs, h]

theorem mate2IvSeq_eq_spec (stranded : String) (b : AlignmentRecord) :
    mate2IvSeq stranded b = mateIvsSpec (!decide (stranded = "reverse")) b := by
  by_cases h : stranded = "reverse"
  · simp [mate2IvSeq, mateIvsSpec, plainIvs, h]
  · simp [mate2IvSeq, mateIvsSpec, invertedIvs, h]

/-- C9: the paired-end interval sequence equals the spec's description
(mate 1 unmodified unless `stranded = "reverse"`, then inverted; mate 2
inverted unless `stranded = "reverse"`, then unmodified; absent or
unaligned mates contribute nothing), and every element of it arises from
a matching-type CIGAR operation of positive size of one of the mates,
either as the operation's reference interval or as its strand
inversion. -/
theorem C9_pair_interval_extraction (stranded : String)
    (r1 r2 : Option AlignmentRecord) :
    pairIvSeq stranded r1 r2 = pairIvSeqSpec stranded r1 r2 ∧
    ∀ x ∈ pairIvSeq stranded r1 r2, ∃ a co,
      (r1 = some a ∨ r2 = some a) ∧ co ∈ a.cigar ∧
      com.contains co.type = true ∧ 0 < co.size ∧
      (x = some co.ref_iv ∨ x = invert_strand co.ref_iv) := by
  constructor
  · cases r1 <;> cases r2 <;>
      simp [pairIvSeq, pairIvSeqSpec, mateContrib, singleIvSeq_eq_spec,
        mate2IvSeq_eq_spec]
  · intro x hx
    rw [pairIvSeq, List.mem_append] at hx
    have main : ∀ (ro : Option AlignmentRecord)
        (f : AlignmentRecord → List (Option GenomicInterval)),
        (∀ a, f a = plainIvs a ∨ f a = invertedIvs a) →
        x ∈ mateContrib f ro → ∃ a co, ro = some a ∧ co ∈ a.cigar ∧
          com.contains co.type = true ∧ 0 < co.size ∧
          (x = some co.ref_iv ∨ x = invert_strand co.ref_iv) := by
      intro ro f hf hmem
      match ro with
      | none => exact absurd hmem (by simp [mateContrib])
      | some a =>
        simp only [mateContrib] at hmem
        by_cases hal : a.aligned
        · rw [if_pos hal] at hmem
          rcases hf a with hfa | hfa <;> rw [hfa] at hmem
          · rcases List.mem_map.1 hmem with ⟨co, hco, hxco⟩
            rcases List.mem_filter.1 hco with ⟨hcig, hpred⟩
            rcases Bool.and_eq_true_iff.1 hpred with ⟨hm, hs⟩
            exact ⟨a, co, rfl, hcig, hm, by simpa using hs, Or.inl hxco.symm⟩
          · rcases List.mem_map.1 hmem with ⟨co, hco, hxco⟩
            rcases List.mem_filter.1 hco with ⟨hcig, hpred⟩
            rcases Bool.and_eq_true_iff.1 hpred with ⟨hm, hs⟩
            exact ⟨a, co, rfl, hcig, hm, by simpa using hs, Or.inr hxco.symm⟩
        · rw [if_neg hal] at hmem
          exact absurd hmem (by simp)
    rcases hx with hx | hx
    · rcases main r1 (singleIvSeq stranded)
        (fun a => by
          by_cases h : stranded = "reverse" <;> simp [singleIvSeq, h]) hx with
        ⟨a, co, h1, h2, h3, h4, h5⟩
      exact ⟨a, co, Or.inl h1, h2, h3, h4, h5⟩
    · rcases main r2 (mate2IvSeq stranded)
        (fun b => by
          by_cases h : stranded = "reverse" <;> simp [mate2IvSeq, h]) hx with
        ⟨a, co, h1, h2, h3, h4, h5⟩
      exact ⟨a, co, Or.inr h1, h2, h3, h4, h5⟩

/-- Witness for C9 at a concrete pair: a reverse-stranded mate 2 interval
is passed through unmodified. -/
theorem C9_pair_interval_extraction_witness :
    pairIvSeq "reverse" none
        (some ⟨true, false, false, 30, [], none,
          [⟨'M', 5, ⟨"c1", 0, 5, Strand.plus⟩⟩]⟩) =
      pairIvSeqSpec "reverse" none
        (some ⟨true, false, false, 30, [], none,
          [⟨'M', 5, ⟨"c1", 0, 5, Strand.plus⟩⟩]⟩) ∧
    ∃ a co,
      ((none : Option AlignmentRecord) = some a ∨
        (some ⟨true, false, false, 30, [], none,
          [⟨'M', 5, ⟨"c1", 0, 5, Strand.plus⟩⟩]⟩ : Option AlignmentRecord) =
          some a) ∧ co ∈ a.cigar ∧
      com.contains co.type = true ∧ 0 < co.size ∧
      (some (⟨"c1", 0, 5, Strand.plus⟩ : GenomicInterval) = some co.ref_iv ∨
        some (⟨"c1", 0, 5, Strand.plus⟩ : GenomicInterval) =
          invert_strand co.ref_iv) := by
  refine ⟨(C9_pair_interval_extraction "reverse" none _).1, ?_⟩
  exact (C9_pair_interval_extraction "reverse" none _).2
    (some ⟨"c1", 0, 5, Strand.plus⟩) (by decide)

/-! ### C8: unknown chromosome -/

theorem unionLoop_unknown (idx : FeatureIndex) :
    ∀ (ivs : List GenomicInterval),
    (∃ iv ∈ ivs, idx.chrom_known iv.chrom = false) → ∀ acc,
    unionLoop idx (ivs.map some) acc = .unknownChrom
  | [], h, _ => absurd h (by simp)
  | iv :: rest, h, acc => by
    show (if idx.chrom_known iv.chrom = true then _ else ROut.unknownChrom) = _
    by_cases hk : idx.chrom_known iv.chrom = true
    · rw [if_pos hk]
      apply unionLoop_unknown idx rest
      rcases h with ⟨x, hx, hxf⟩
      rcases List.mem_cons.1 hx with rfl | hx'
      · rw [hk] at hxf; cases hxf
      · exact ⟨x, hx', hxf⟩
    · rw [if_neg hk]

theorem interLoop_unknown (strict : Bool) (idx : FeatureIndex) :
    ∀ (ivs : List GenomicInterval),
    (∃ iv ∈ ivs, idx.chrom_known iv.chrom = false) → ∀ acc,
    interLoop strict idx (ivs.map some) acc = .unknownChrom
  | [], h, _ => absurd h (by simp)
  | iv :: rest, h, acc => by
    show (if idx.chrom_known iv.chrom = true then _ else ROut.unknownChrom) = _
    by_cases hk : idx.chrom_known iv.chrom = true
    · rw [if_pos hk]
      apply interLoop_unknown strict idx rest
      rcases h with ⟨x, hx, hxf⟩
      rcases List.mem_cons.1 hx with rfl | hx'
      · rw [hk] at hxf; cases hxf
      · exact ⟨x, hx', hxf⟩
    · rw [if_neg hk]

/-- C8: when the interval sequence of a RecordUnit contains an interval
on a chromosome unknown to the index (and the overlap mode is one of the
three legal ones), the resolution block yields exactly one `no_feature`
increment with no fatal error, whatever was accumulated from earlier
intervals; and the scan applies that single increment and continues with
the next RecordUnit. -/
theorem C8_unknown_chrom_no_feature (p : Params) (idx : FeatureIndex)
    (ivs : List GenomicInterval)
    (hmode : p.overlap_mode = "union" ∨
      p.overlap_mode = "intersection-strict" ∨
      p.overlap_mode = "intersection-nonempty")
    (h : ∃ iv ∈ ivs, idx.chrom_known iv.chrom = false) :
    resolveUnit p idx (ivs.map some) = .ok [Category.no_feature] ∧
    ∀ (u : RecordUnit) (us : List RecordUnit) (t : CountTable),
      processUnit p idx u = .counted [Category.no_feature] →
      scan p idx (u :: us) t =
        scan p idx us
          (bumpTable (identify_barcodes p.cb_tag p.ub_tag u).1
            (identify_barcodes p.cb_tag p.ub_tag u).2 Category.no_feature t) := by
  constructor
  · rw [resolveUnit]
    rcases hmode with hm | hm | hm <;> rw [hm]
    · rw [resolveOverlap_union_eq, unionLoop_unknown idx ivs h]
    · rw [resolveOverlap_strict_eq, interLoop_unknown true idx ivs h]
    · rw [resolveOverlap_nonempty_eq, interLoop_unknown false idx ivs h]
  · intro u us t hu
    simp [scan, hu]

/-- Witness for C8: one known-chromosome interval followed by one on an
unknown chromosome, in union mode; the partially accumulated feature is
discarded and the unit yields a single `no_feature`. -/
theorem C8_unknown_chrom_no_feature_witness :
    resolveUnit
        ⟨"no", "union", "none", "ignore", "ignore", 10, "CB", "UB"⟩
        ⟨fun c => c = "c1", fun _ => [{"A"}]⟩
        ([⟨"c1", 0, 5, Strand.plus⟩,
          (⟨"c9", 0, 5, Strand.plus⟩ : GenomicInterval)].map some) =
      .ok [Category.no_feature] :=
  (C8_unknown_chrom_no_feature
    ⟨"no", "union", "none", "ignore", "ignore", 10, "CB", "UB"⟩
    ⟨fun c => c = "c1", fun _ => [{"A"}]⟩
    [⟨"c1", 0, 5, Strand.plus⟩, ⟨"c9", 0, 5, Strand.plus⟩]
    (Or.inl rfl)
    ⟨⟨"c9", 0, 5, Strand.plus⟩, by decide⟩).1

/-! ### C4: single-end classifier order -/

/-- C4: the single-end classifier applies its checks in the strict
short-circuit order not-aligned, secondary-ignore (drop), supplementary-
ignore (drop), multimapped (recorded; stop iff multimapped mode is
`none`), quality.  In particular a multimapped record with quality below
threshold is counted as `__alignment_not_unique` (not
`__too_low_aQual`) under mode `none`, and under mode `all` it proceeds
to the quality check and then to overlap resolution. -/
theorem C4_single_end_check_order (p : Params) (idx : FeatureIndex)
    (r : AlignmentRecord) :
    (r.aligned = false →
      processSingle p idx r = .counted [.not_aligned]) ∧
    (r.aligned = true → p.secondary_alignment_mode = "ignore" →
      r.not_primary_alignment = true →
      processSingle p idx r = .dropped) ∧
    (r.aligned = true →
      ¬(p.secondary_alignment_mode = "ignore" ∧
        r.not_primary_alignment = true) →
      p.supplementary_alignment_mode = "ignore" → r.supplementary = true →
      processSingle p idx r = .dropped) ∧
    (r.aligned = true →
      ¬(p.secondary_alignment_mode = "ignore" ∧
        r.not_primary_alignment = true) →
      ¬(p.supplementary_alignment_mode = "ignore" ∧
        r.supplementary = true) →
      nhGt1 r = true → p.multimapped_mode = "none" →
      processSingle p idx r = .counted [.alignment_not_unique]) ∧
    (r.aligned = true →
      ¬(p.secondary_alignment_mode = "ignore" ∧
        r.not_primary_alignment = true) →
      ¬(p.supplementary_alignment_mode = "ignore" ∧
        r.supplementary = true) →
      nhGt1 r = true → p.multimapped_mode = "all" → r.aQual < p.minaqual →
      processSingle p idx r =
        .counted [.alignment_not_unique, .too_low_aQual]) ∧
    (r.aligned = true →
      ¬(p.secondary_alignment_mode = "ignore" ∧
        r.not_primary_alignment = true) →
      ¬(p.supplementary_alignment_mode = "ignore" ∧
        r.supplementary = true) →
      nhGt1 r = true → p.multimapped_mode = "all" →
      ¬(r.aQual < p.minaqual) →
      processSingle p idx r =
        (match resolveUnit p idx (singleIvSeq p.stranded r) with
         | .error m => .fatal m
         | .ok cats => .counted (.alignment_not_unique :: cats))) ∧
    (r.aligned = true →
      ¬(p.secondary_alignment_mode = "ignore" ∧
        r.not_primary_alignment = true) →
      ¬(p.supplementary_alignment_mode = "ignore" ∧
        r.supplementary = true) →
      nhGt1 r = false → r.aQual < p.minaqual →
      processSingle p idx r = .counted [.too_low_aQual]) := by
  refine ⟨?_, ?_, ?_, ?_, ?_, ?_, ?_⟩
  · intro h1
    simp [processSingle, h1]
  · intro h1 h2 h3
    simp [processSingle, h1, h2, h3]
  · intro h1 h2 h3 h4
    simp [processSingle, h1, h2, h3, h4]
  · intro h1 h2 h3 h4 h5
    simp [processSingle, h1, h2, h3, h4, h5]
  · intro h1 h2 h3 h4 h5 h6
    simp [processSingle, h1, h2, h3, h4, h5, h6]
  · intro h1 h2 h3 h4 h5 h6
    simp [processSingle, h1, h2, h3, h4, h5, h6]
  · intro h1 h2 h3 h4 h5
    simp [processSingle, h1, h2, h3, h4, h5]

/-- Witness for C4 at a concrete record: multimapped (NH = 2) with
quality below threshold under multimapped mode `none` is counted as
`__alignment_not_unique`, not as `__too_low_aQual`. -/
theorem C4_single_end_check_order_witness :
    processSingle
        ⟨"no", "union", "none", "ignore", "ignore", 10, "CB", "UB"⟩
        ⟨fun _ => true, fun _ => []⟩
        ⟨true, false, false, 3, [], some 2, []⟩ =
      .counted [.alignment_not_unique] :=
  (C4_single_end_check_order
      ⟨"no", "union", "none", "ignore", "ignore", 10, "CB", "UB"⟩
      ⟨fun _ => true, fun _ => []⟩
      ⟨true, false, false, 3, [], some 2, []⟩).2.2.2.1
    rfl (by decide) (by decide) (by decide) rfl

/-! ### C5: paired-end multimapped check -/

/-- Counterexample to C5: mate 1 is present without an NH tag and mate 2
reports NH = 2, yet the pair is not flagged multimapped — the `KeyError`
raised while evaluating mate 1's side of the short-circuit `or` aborts
the whole check, and the pair is counted as `__no_feature` with no
`__alignment_not_unique` increment. -/
theorem C5_counterexample :
    pairNH (some ⟨true, false, false, 30, [], none, []⟩)
        (some ⟨true, false, false, 30, [], some 2, []⟩) ≠ some true ∧
    processPair ⟨"no", "union", "none", "ignore", "ignore", 10, "CB", "UB"⟩
        ⟨fun _ => true, fun _ => []⟩
        (some ⟨true, false, false, 30, [], none, []⟩)
        (some ⟨true, false, false, 30, [], some 2, []⟩) =
      .counted [.no_feature] ∧
    Category.alignment_not_unique ∉ [Category.no_feature] := by
  refine ⟨by decide, by decide, by decide⟩

/-- C5 amended: the paired-end multimapped check is triggered exactly
when the short-circuit evaluation of
`(r[0] is not None and r[0].NH > 1) or (r[1] is not None and r[1].NH > 1)`
completes without a `KeyError` and yields true: either mate 1 is present
with NH > 1, or (mate 1 is absent, or present with an NH tag whose value
is at most 1) and mate 2 is present with NH > 1.  A consulted mate that
lacks the NH tag silently cancels the whole check. -/
theorem C5_amended_pair_NH (r1 r2 : Option AlignmentRecord) :
    pairNH r1 r2 = some true ↔
      ((∃ a, r1 = some a ∧ ∃ n, a.NH = some n ∧ 1 < n) ∨
       ((r1 = none ∨ ∃ a, r1 = some a ∧ ∃ n, a.NH = some n ∧ ¬ 1 < n) ∧
        (∃ b, r2 = some b ∧ ∃ m, b.NH = some m ∧ 1 < m))) := by
  match r1, r2 with
  | none, none => simp [pairNH]
  | none, some b =>
    cases hb : b.NH with
    | none => simp [pairNH, hb]
    | some m => by_cases hm : 1 < m <;> simp [pairNH, hb, hm]
  | some a, none =>
    cases ha : a.NH with
    | none => simp [pairNH, ha]
    | some n => by_cases hn : 1 < n <;> simp [pairNH, ha, hn]
  | some a, some b =>
    cases ha : a.NH with
    | none => simp [pairNH, ha]
    | some n =>
      cases hb : b.NH with
      | none => by_cases hn : 1 < n <;> simp [pairNH, ha, hb, hn]
      | some m =>
        by_cases hn : 1 < n <;> by_cases hm : 1 < m <;>
          · simp [pairNH, ha, hb, hn, hm]
            try omega

/-- Witness for C5's amended statement: mate 1 with NH = 1 and mate 2
with NH = 3 trigger the check. -/
theorem C5_amended_pair_NH_witness :
    pairNH (some ⟨true, false, false, 30, [], some 1, []⟩)
        (some ⟨true, false, false, 30, [], some 3, []⟩) = some true :=
  (C5_amended_pair_NH _ _).2
    (Or.inr ⟨Or.inr ⟨_, rfl, 1, rfl, by decide⟩, ⟨_, rfl, 3, rfl, by decide⟩⟩)

/-! ### C6: barcode extraction -/

/-- The value of the first optional field carrying tag `t`. -/
def tagLookup (t : String) (fields : List (String × String)) : Option String :=
  (fields.find? (fun q => q.1 == t)).map Prod.snd

theorem countP_cons_le_one {α : Type} (p : α → Bool) (a : α) (l : List α)
    (h : (a :: l).countP p ≤ 1) (hp : p a = true) :
    ∀ x ∈ l, p x = false := by
  intro x hx
  by_contra hpx
  simp [List.countP_cons, hp] at h
  exact hpx (h x hx)

theorem countP_cons_le_tail {α : Type} (p : α → Bool) (a : α) (l : List α)
    (h : (a :: l).countP p ≤ 1) : l.countP p ≤ 1 := by
  by_cases hp : p a = true
  · simp [List.countP_cons, hp] at h
    rw [List.countP_eq_zero.2 (fun a ha => by simp [h a ha])]
    omega
  · simp [List.countP_cons, hp] at h
    exact h

theorem scanBarcodes_after_cb (cbt ubt : String) :
    ∀ (fields : List (String × String)) (v : String),
    (∀ q ∈ fields, ¬ q.1 = cbt) →
    scanBarcodes cbt ubt fields (some v) none 1 =
      (some v, tagLookup ubt fields)
  | [], v, _ => rfl
  | (t, w) :: rest, v, h => by
    have ht : ¬ t = cbt := h (t, w) (by simp)
    by_cases hu : t = ubt
    · subst hu
      simp [scanBarcodes, tagLookup, ht]
    · rw [show scanBarcodes cbt ubt ((t, w) :: rest) (some v) none 1 =
          scanBarcodes cbt ubt rest (some v) none 1 from by
            simp [scanBarcodes, ht, hu]]
      rw [scanBarcodes_after_cb cbt ubt rest v
        (fun q hq => h q (by simp [hq]))]
      simp [tagLookup, ht, hu]

theorem scanBarcodes_after_ub (cbt ubt : String) :
    ∀ (fields : List (String × String)) (v : String),
    (∀ q ∈ fields, ¬ q.1 = ubt) →
    scanBarcodes cbt ubt fields none (some v) 1 =
      (tagLookup cbt fields, some v)
  | [], v, _ => rfl
  | (t, w) :: rest, v, h => by
    have ht : ¬ t = ubt := h (t, w) (by simp)
    by_cases hc : t = cbt
    · subst hc
      simp [scanBarcodes, tagLookup]
    · rw [show scanBarcodes cbt ubt ((t, w) :: rest) none (some v) 1 =
          scanBarcodes cbt ubt rest none (some v) 1 from by
            simp [scanBarcodes, ht, hc]]
      rw [scanBarcodes_after_ub cbt ubt rest v
        (fun q hq => h q (by simp [hq]))]
      simp [tagLookup, ht, hc]

/-- Counterexample to C6: the early exit fires after any two tag
matches, not after both components are found.  A unit whose fields list
the cell tag twice before the UMI tag returns `None` for the UMI even
though the UMI tag is present. -/
theorem C6_counterexample :
    ("UB", "u") ∈ unitFields (.single
      ⟨true, false, false, 30,
        [("CB", "a"), ("CB", "a"), ("UB", "u")], none, []⟩) ∧
    (identify_barcodes "CB" "UB" (.single
      ⟨true, false, false, 30,
        [("CB", "a"), ("CB", "a"), ("UB", "u")], none, []⟩)).2 ≠ some "u" := by
  refine ⟨by decide, by decide⟩

/-- C6 amended: the scan stops early once two tag matches of either kind
have occurred, so a repeated tag can end it with the other component
still `None`; when the configured cell and UMI tag keys differ and each
occurs at most once across the present mates' fields, the result is
exactly the pair of the values at those keys (`None` for an absent
key), and in particular a present UMI tag's value is always returned. -/
theorem C6_amended_barcode_scan (cbt ubt : String) (hne : ¬ cbt = ubt)
    (u : RecordUnit)
    (hc : (unitFields u).countP (fun q => q.1 == cbt) ≤ 1)
    (hu : (unitFields u).countP (fun q => q.1 == ubt) ≤ 1) :
    identify_barcodes cbt ubt u =
      (tagLookup cbt (unitFields u), tagLookup ubt (unitFields u)) := by
  rw [identify_barcodes]
  revert hc hu
  generalize unitFields u = fields
  induction fields with
  | nil => intro _ _; rfl
  | cons q rest ih =>
    intro hc hu
    obtain ⟨t, w⟩ := q
    by_cases htc : t = cbt
    · subst htc
      have hrest : ∀ x ∈ rest, ¬ x.1 = t := by
        intro x hx hxc
        have hfalse := countP_cons_le_one _ _ _ hc (by simp) x hx
        rw [hxc] at hfalse
        simp at hfalse
      rw [show scanBarcodes t ubt ((t, w) :: rest) none none 0 =
          scanBarcodes t ubt rest (some w) none 1 from by
            simp [scanBarcodes]]
      rw [scanBarcodes_after_cb t ubt rest w hrest]
      have hne' : ¬ t = ubt := hne
      simp [tagLookup, hne']
    · by_cases htu : t = ubt
      · subst htu
        have hrest : ∀ x ∈ rest, ¬ x.1 = t := by
          intro x hx hxc
          have hfalse := countP_cons_le_one _ _ _ hu (by simp) x hx
          rw [hxc] at hfalse
          simp at hfalse
        rw [show scanBarcodes cbt t ((t, w) :: rest) none none 0 =
            scanBarcodes cbt t rest none (some w) 1 from by
              simp [scanBarcodes, htc]]
        rw [scanBarcodes_after_ub cbt t rest w hrest]
        have hne' : ¬ t = cbt := htc
        simp [tagLookup, hne']
      · rw [show scanBarcodes cbt ubt ((t, w) :: rest) none none 0 =
            scanBarcodes cbt ubt rest none none 0 from by
              simp [scanBarcodes, htc, htu]]
        rw [ih (countP_cons_le_tail _ _ _ hc) (countP_cons_le_tail _ _ _ hu)]
        simp [tagLookup, htc, htu]

/-- Witness for C6's amended statement: distinct tags, each occurring
once, are both returned. -/
theorem C6_amended_barcode_scan_witness :
    identify_barcodes "CB" "UB"
        (.single ⟨true, false, false, 30,
          [("CB", "a"), ("XX", "y"), ("UB", "u")], none, []⟩) =
      (some "a", some "u") := by
  have h := C6_amended_barcode_scan "CB" "UB" (by decide)
    (.single ⟨true, false, false, 30,
      [("CB", "a"), ("XX", "y"), ("UB", "u")], none, []⟩)
    (by decide) (by decide)
  rw [h]
  decide

/-! ### C7: configuration errors -/

theorem resolveOverlap_illegal (mode : String) (h1 : ¬ mode = "union")
    (h2 : ¬ mode = "intersection-strict")
    (h3 : ¬ mode = "intersection-nonempty")
    (idx : FeatureIndex) (ivs : List (Option GenomicInterval)) :
    resolveOverlap mode idx ivs = .illegal := by
  simp [resolveOverlap, h1, h2, h3]

/-- Counterexample to C7: configuration errors are not raised before any
record is processed.  With an unrecognized overlap mode, a stream whose
only record is unaligned is counted (a CountTable entry is created) and
the scan completes without error; with an unrecognized multimap mode, a
record that resolves to an empty feature set never reaches the multimap
dispatch and the scan also completes without error. -/
theorem C7_counterexample :
    scan ⟨"no", "bogus", "none", "ignore", "ignore", 10, "CB", "UB"⟩
        ⟨fun _ => true, fun _ => []⟩
        [.single ⟨false, false, false, 30, [], none, []⟩] [] =
      .ok [(none, [(none, [(Category.not_aligned, 1)])])] ∧
    scan ⟨"no", "union", "bogus", "ignore", "ignore", 10, "CB", "UB"⟩
        ⟨fun _ => true, fun _ => []⟩
        [.single ⟨true, false, false, 30, [],
          none, [⟨'M', 5, ⟨"c1", 0, 5, Strand.plus⟩⟩]⟩] [] =
      .ok [(none, [(none, [(Category.no_feature, 1)])])] := by
  refine ⟨by rfl, by rfl⟩

theorem categoriesOf_illegal (mm : String) (h1 : ¬ mm = "none")
    (h2 : ¬ mm = "all") (f : Finset String) (hf : 0 < f.card) :
    categoriesOf mm (some f) = .error "Illegal multimap mode." := by
  have h0 : ¬ f.card = 0 := by omega
  simp [categoriesOf, h0, h1, h2]

/-- C7 amended: an unrecognized overlap mode is fatal at the first
RecordUnit that reaches overlap resolution, and an unrecognized
multimapped mode at the first RecordUnit whose resolved feature set is
non-empty — not before any record is processed: units that stop earlier
— for example unaligned ones — are counted normally, and the scan
aborts only when some unit goes fatal. -/
theorem C7_amended_config_error (p : Params) (idx : FeatureIndex) :
    (∀ r : AlignmentRecord,
      ¬ p.overlap_mode = "union" →
      ¬ p.overlap_mode = "intersection-strict" →
      ¬ p.overlap_mode = "intersection-nonempty" →
      r.aligned = true →
      ¬(p.secondary_alignment_mode = "ignore" ∧
        r.not_primary_alignment = true) →
      ¬(p.supplementary_alignment_mode = "ignore" ∧
        r.supplementary = true) →
      ¬(nhGt1 r = true ∧ p.multimapped_mode = "none") →
      ¬(r.aQual < p.minaqual) →
      processSingle p idx r = .fatal "Illegal overlap mode.") ∧
    (∀ r : AlignmentRecord, r.aligned = false →
      processSingle p idx r = .counted [.not_aligned]) ∧
    (∀ (r : AlignmentRecord) (f : Finset String),
      ¬ p.multimapped_mode = "none" → ¬ p.multimapped_mode = "all" →
      r.aligned = true →
      ¬(p.secondary_alignment_mode = "ignore" ∧
        r.not_primary_alignment = true) →
      ¬(p.supplementary_alignment_mode = "ignore" ∧
        r.supplementary = true) →
      ¬(r.aQual < p.minaqual) →
      resolveOverlap p.overlap_mode idx (singleIvSeq p.stranded r) =
        .resolved (some f) →
      0 < f.card →
      processSingle p idx r = .fatal "Illegal multimap mode.") ∧
    (∀ (u : RecordUnit) (us : List RecordUnit) (t : CountTable) (m : String),
      processUnit p idx u = .fatal m →
      scan p idx (u :: us) t = .error m) := by
  refine ⟨?_, ?_, ?_, ?_⟩
  · intro r h1 h2 h3 ha hsec hsup hnh hq
    have hru : resolveUnit p idx (singleIvSeq p.stranded r) =
        .error "Illegal overlap mode." := by
      rw [resolveUnit, resolveOverlap_illegal p.overlap_mode h1 h2 h3]
    simp [processSingle, ha, hsec, hsup, hnh, hq, hru]
  · intro r ha
    simp [processSingle, ha]
  · intro r f hmm1 hmm2 ha hsec hsup hq hro hf
    have hru : resolveUnit p idx (singleIvSeq p.stranded r) =
        .error "Illegal multimap mode." := by
      rw [resolveUnit, hro]
      dsimp only
      exact categoriesOf_illegal p.multimapped_mode hmm1 hmm2 f hf
    have hnh : ¬(nhGt1 r = true ∧ p.multimapped_mode = "none") :=
      fun hcon => hmm1 hcon.2
    simp [processSingle, ha, hsec, hsup, hnh, hq, hru]
  · intro u us t m hu
    simp [scan, hu]

/-- Witness for C7's amended statement at a concrete configuration and
records: a unit reaching resolution under a bogus overlap mode goes
fatal, an unaligned unit under the same mode is still counted, and a
unit resolving to the non-empty feature set under a bogus multimapped
mode goes fatal at the multimap dispatch. -/
theorem C7_amended_config_error_witness :
    processSingle ⟨"no", "bogus", "none", "ignore", "ignore", 10, "CB", "UB"⟩
        ⟨fun _ => true, fun _ => []⟩
        ⟨true, false, false, 30, [], none, []⟩ =
      .fatal "Illegal overlap mode." ∧
    processSingle ⟨"no", "bogus", "none", "ignore", "ignore", 10, "CB", "UB"⟩
        ⟨fun _ => true, fun _ => []⟩
        ⟨false, false, false, 30, [], none, []⟩ =
      .counted [.not_aligned] ∧
    processSingle ⟨"no", "union", "bogus", "ignore", "ignore", 10, "CB", "UB"⟩
        ⟨fun _ => true, fun _ => [{"A"}]⟩
        ⟨true, false, false, 30, [], none,
          [⟨'M', 5, ⟨"c1", 0, 5, Strand.plus⟩⟩]⟩ =
      .fatal "Illegal multimap mode." := by
  refine ⟨?_, ?_, ?_⟩
  · exact (C7_amended_config_error
      ⟨"no", "bogus", "none", "ignore", "ignore", 10, "CB", "UB"⟩
      ⟨fun _ => true, fun _ => []⟩).1
      ⟨true, false, false, 30, [], none, []⟩
      (by decide) (by decide) (by decide)
      rfl (by decide) (by decide) (by decide) (by decide)
  · exact (C7_amended_config_error
      ⟨"no", "bogus", "none", "ignore", "ignore", 10, "CB", "UB"⟩
      ⟨fun _ => true, fun _ => []⟩).2.1
      ⟨false, false, false, 30, [], none, []⟩ rfl
  · exact (C7_amended_config_error
      ⟨"no", "union", "bogus", "ignore", "ignore", 10, "CB", "UB"⟩
      ⟨fun _ => true, fun _ => [{"A"}]⟩).2.2.1
      ⟨true, false, false, 30, [], none,
        [⟨'M', 5, ⟨"c1", 0, 5, Strand.plus⟩⟩]⟩ {"A"}
      (by decide) (by decide) rfl (by decide) (by decide) (by decide)
      (by decide) (by decide)

/-! ### C2 and C10: UMI collapse -/

theorem find?_split {α : Type} (p : α → Bool) :
    ∀ (l : List α) (a : α), l.find? p = some a →
      p a = true ∧ ∃ l₁ l₂, l = l₁ ++ a :: l₂ ∧ ∀ x ∈ l₁, p x = false
  | [], a, h => by cases h
  | x :: rest, a, h => by
    by_cases hx : p x = true
    · rw [List.find?_cons_of_pos _ hx] at h
      obtain rfl : x = a := Option.some.inj h
      exact ⟨hx, [], rest, rfl, by simp⟩
    · rw [List.find?_cons_of_neg _ (by simpa using hx)] at h
      obtain ⟨hpa, l₁, l₂, heq, hl₁⟩ := find?_split p rest a h
      refine ⟨hpa, x :: l₁, l₂, by rw [List.cons_append, heq], ?_⟩
      intro y hy
      rcases List.mem_cons.1 hy with rfl | hy'
      · simpa using hx
      · exact hl₁ y hy'

theorem find?_isSome_of_mem {α : Type} (p : α → Bool) :
    ∀ (l : List α) (x : α), x ∈ l → p x = true → ∃ y, l.find? p = some y
  | [], x, hx, _ => absurd hx (by simp)
  | a :: rest, x, hx, hpx => by
    by_cases ha : p a = true
    · exact ⟨a, List.find?_cons_of_pos _ ha⟩
    · rcases List.mem_cons.1 hx with rfl | h
      · exact absurd hpx ha
      · obtain ⟨y, hy⟩ := find?_isSome_of_mem p rest x h hpx
        exact ⟨y, by rw [List.find?_cons_of_neg _ (by simpa using ha)]
                     exact hy⟩

theorem foldl_max_init_le : ∀ (b : Bucket) (acc : Nat),
    acc ≤ b.foldl (fun m q => max m q.2) acc
  | [], acc => le_refl acc
  | q :: rest, acc =>
    le_trans (le_max_left acc q.2) (foldl_max_init_le rest (max acc q.2))

theorem foldl_max_le_of_mem : ∀ (b : Bucket) (q : Category × Nat), q ∈ b →
    ∀ acc, q.2 ≤ b.foldl (fun m q => max m q.2) acc
  | q' :: rest, q, hq, acc => by
    rcases List.mem_cons.1 hq with rfl | h
    · exact le_trans (le_max_right acc q.2) (foldl_max_init_le rest _)
    · exact foldl_max_le_of_mem rest q h _

theorem foldl_max_attained : ∀ (b : Bucket) (acc : Nat),
    b.foldl (fun m q => max m q.2) acc = acc ∨
      ∃ q ∈ b, b.foldl (fun m q => max m q.2) acc = q.2
  | [], _ => Or.inl rfl
  | q :: rest, acc => by
    rw [List.foldl_cons]
    rcases foldl_max_attained rest (max acc q.2) with h | ⟨q', hq', hh⟩
    · rcases max_choice acc q.2 with hm | hm
      · rw [h, hm]
        exact Or.inl rfl
      · exact Or.inr ⟨q, by simp, by rw [h, hm]⟩
    · exact Or.inr ⟨q', by simp [hq'], hh⟩

theorem le_bucketMax (b : Bucket) (q : Category × Nat) (hq : q ∈ b) :
    q.2 ≤ bucketMax b :=
  foldl_max_le_of_mem b q hq 0

theorem bucketMax_attained (q0 : Category × Nat) (rest : Bucket) :
    ∃ q ∈ q0 :: rest, q.2 = bucketMax (q0 :: rest) := by
  rcases foldl_max_attained (q0 :: rest) 0 with h | ⟨q, hq, hh⟩
  · refine ⟨q0, by simp, ?_⟩
    have hle := le_bucketMax (q0 :: rest) q0 (by simp)
    have h0 : bucketMax (q0 :: rest) = 0 := h
    omega
  · exact ⟨q, hq, hh.symm⟩

theorem mostCommon1_cons_isSome (q0 : Category × Nat) (rest : Bucket) :
    ∃ w, mostCommon1 (q0 :: rest) = some w := by
  obtain ⟨q, hq, hmax⟩ := bucketMax_attained q0 rest
  obtain ⟨y, hy⟩ :=
    find?_isSome_of_mem (fun q => q.2 == bucketMax (q0 :: rest))
      (q0 :: rest) q hq (by simp [hmax])
  exact ⟨y.1, by rw [mostCommon1, hy]; rfl⟩

/-- `most_common(1)` picks the entry with the strictly highest count,
ties broken in favour of the entry first inserted in the bucket. -/
theorem mostCommon1_spec (b : Bucket) (w : Category)
    (h : mostCommon1 b = some w) :
    ∃ n l₁ l₂, b = l₁ ++ (w, n) :: l₂ ∧ (∀ q ∈ l₁, q.2 < n) ∧
      ∀ q ∈ b, q.2 ≤ n := by
  rw [mostCommon1] at h
  cases hfind : b.find? (fun q => q.2 == bucketMax b) with
  | none => rw [hfind] at h; cases h
  | some qw =>
    rw [hfind] at h
    have hw : qw.1 = w := by simpa using h
    subst hw
    obtain ⟨hp, l₁, l₂, heq, hl₁⟩ := find?_split _ b qw hfind
    have hmax : qw.2 = bucketMax b := by simpa using hp
    refine ⟨qw.2, l₁, l₂, by rw [heq], ?_, ?_⟩
    · intro q hq
      have hlt : q.2 ≠ bucketMax b := by simpa using hl₁ q hq
      have hle : q.2 ≤ bucketMax b :=
        le_bucketMax b q (by rw [heq]; exact List.mem_append_left _ hq)
      omega
    · intro q hq
      rw [hmax]
      exact le_bucketMax b q hq

theorem bucketSum_bump (c : Category) : ∀ (b : Bucket),
    bucketSum (bumpBucket c b) = bucketSum b + 1
  | [] => by simp [bumpBucket, bucketSum]
  | (c', n) :: rest => by
    by_cases hc : c' = c
    · simp [bumpBucket, hc, bucketSum]
      omega
    · simp only [bumpBucket, if_neg hc, bucketSum, List.map_cons, List.sum_cons]
      have := bucketSum_bump c rest
      simp only [bucketSum] at this
      omega

theorem collapseCell_sum : ∀ (umis : UmiTable) (acc cc : Bucket),
    collapseCell umis acc = some cc →
    bucketSum cc = bucketSum acc + umis.length
  | [], acc, cc, h => by
    obtain rfl : acc = cc := Option.some.inj h
    simp
  | (ub, b) :: rest, acc, cc, h => by
    rw [collapseCell] at h
    cases hm : mostCommon1 b with
    | none => rw [hm] at h; cases h
    | some w =>
      rw [hm] at h
      have hrec := collapseCell_sum rest (bumpBucket w acc) cc h
      rw [hrec, bucketSum_bump]
      simp [List.length_cons]
      omega

theorem collapseCell_isSome : ∀ (umis : UmiTable),
    (∀ q ∈ umis, q.2 ≠ ([] : Bucket)) → ∀ acc,
    ∃ cc, collapseCell umis acc = some cc
  | [], _, acc => ⟨acc, rfl⟩
  | (ub, b) :: rest, h, acc => by
    cases b with
    | nil => exact absurd rfl (h (ub, []) (by simp))
    | cons q0 brest =>
      obtain ⟨w, hw⟩ := mostCommon1_cons_isSome q0 brest
      rw [collapseCell, hw]
      exact collapseCell_isSome rest (fun q hq => h q (by simp [hq])) _

theorem collapseCell_winners : ∀ (umis : UmiTable) (acc cc : Bucket),
    collapseCell umis acc = some cc →
    ∀ ub b, (ub, b) ∈ umis → ∃ w, mostCommon1 b = some w
  | [], _, _, _, ub, b, hm => absurd hm (by simp)
  | (ub', b') :: rest, acc, cc, h, ub, b, hm => by
    rw [collapseCell] at h
    cases hmc : mostCommon1 b' with
    | none => rw [hmc] at h; cases h
    | some w' =>
      rw [hmc] at h
      rcases List.mem_cons.1 hm with heq | hmem
      · obtain ⟨rfl, rfl⟩ := Prod.mk.injEq .. ▸ heq
        exact ⟨w', hmc⟩
      · exact collapseCell_winners rest _ cc h ub b hmem

theorem alookup_mem {κ α : Type} [DecidableEq κ] :
    ∀ (l : List (κ × α)) (k : κ) (v : α), alookup l k = some v → (k, v) ∈ l
  | [], k, v, h => by cases h
  | (k', v') :: rest, k, v, h => by
    rw [alookup] at h
    by_cases hk : k' = k
    · rw [if_pos hk] at h
      obtain rfl := Option.some.inj h
      subst hk
      simp
    · rw [if_neg hk] at h
      exact List.mem_cons_of_mem _ (alookup_mem rest k v h)

theorem alookup_isSome_of_mem {κ α : Type} [DecidableEq κ] :
    ∀ (l : List (κ × α)) (k : κ), k ∈ l.map Prod.fst →
    ∃ v, alookup l k = some v
  | [], k, h => absurd h (by simp)
  | (k', v') :: rest, k, h => by
    rw [alookup]
    by_cases hk : k' = k
    · exact ⟨v', by rw [if_pos hk]⟩
    · rw [List.map_cons] at h
      rcases List.mem_cons.1 h with rfl | h'
      · exact absurd rfl hk
      · obtain ⟨v, hv⟩ := alookup_isSome_of_mem rest k h'
        exact ⟨v, by rw [if_neg hk]; exact hv⟩

theorem alookup_eq_of_mem_nodup {κ α : Type} [DecidableEq κ] :
    ∀ (l : List (κ × α)) (k : κ) (v : α), (l.map Prod.fst).Nodup →
    (k, v) ∈ l → alookup l k = some v
  | [], k, v, _, hm => absurd hm (by simp)
  | (k', v') :: rest, k, v, hnd, hm => by
    rw [List.map_cons, List.nodup_cons] at hnd
    rw [alookup]
    rcases List.mem_cons.1 hm with heq | hmem
    · cases heq
      rw [if_pos rfl]
    · by_cases hk : k' = k
      · subst hk
        have hmem' : k' ∈ rest.map Prod.fst := by
          exact List.mem_map.2 ⟨(k', v), hmem, rfl⟩
        exact absurd hmem' hnd.1
      · rw [if_neg hk]
        exact alookup_eq_of_mem_nodup rest k v hnd.2 hmem

theorem collapseAll_keys (T : CountTable) :
    ∀ (cbs : List (Option String)) (out : List (Option String × Bucket)),
    collapseAll T cbs = some out → out.map Prod.fst = cbs
  | [], out, h => by
    obtain rfl : ([] : List (Option String × Bucket)) = out :=
      Option.some.inj h
    rfl
  | cb :: rest, out, h => by
    rw [collapseAll] at h
    cases ha : alookup T cb with
    | none => rw [ha] at h; cases h
    | some umis =>
      rw [ha] at h
      dsimp only at h
      cases hcc : collapseCell umis [] with
      | none => rw [hcc] at h; cases h
      | some cc =>
        rw [hcc] at h
        dsimp only at h
        cases hrec : collapseAll T rest with
        | none => rw [hrec] at h; cases h
        | some out' =>
          rw [hrec] at h
          dsimp only at h
          obtain rfl : (cb, cc) :: out' = out := Option.some.inj h
          rw [List.map_cons, collapseAll_keys T rest out' hrec]

theorem collapseAll_mem (T : CountTable) :
    ∀ (cbs : List (Option String)) (out : List (Option String × Bucket)),
    collapseAll T cbs = some out → ∀ cb ∈ cbs,
    ∃ umis cc, alookup T cb = some umis ∧ collapseCell umis [] = some cc ∧
      (cb, cc) ∈ out
  | [], out, _, cb, hcb => absurd hcb (by simp)
  | cb' :: rest, out, h, cb, hcb => by
    rw [collapseAll] at h
    cases ha : alookup T cb' with
    | none => rw [ha] at h; cases h
    | some umis =>
      rw [ha] at h
      dsimp only at h
      cases hcc : collapseCell umis [] with
      | none => rw [hcc] at h; cases h
      | some cc =>
        rw [hcc] at h
        dsimp only at h
        cases hrec : collapseAll T rest with
        | none => rw [hrec] at h; cases h
        | some out' =>
          rw [hrec] at h
          dsimp only at h
          obtain rfl : (cb', cc) :: out' = out := Option.some.inj h
          rcases List.mem_cons.1 hcb with rfl | hcb'
          · exact ⟨umis, cc, ha, hcc, by simp⟩
          · obtain ⟨umis2, cc2, h1, h2, h3⟩ :=
              collapseAll_mem T rest out' hrec cb hcb'
            exact ⟨umis2, cc2, h1, h2, List.mem_cons_of_mem _ h3⟩

theorem collapseAll_isSome (T : CountTable)
    (hne : ∀ p ∈ T, ∀ q ∈ p.2, q.2 ≠ ([] : Bucket)) :
    ∀ (cbs : List (Option String)),
    (∀ cb ∈ cbs, cb ∈ T.map Prod.fst) →
    ∃ out, collapseAll T cbs = some out
  | [], _ => ⟨[], rfl⟩
  | cb :: rest, h => by
    obtain ⟨umis, humis⟩ :=
      alookup_isSome_of_mem T cb (h cb (by simp))
    obtain ⟨cc, hcc⟩ := collapseCell_isSome umis
      (fun q hq => hne (cb, umis) (alookup_mem T cb umis humis) q hq) []
    obtain ⟨out', hout'⟩ :=
      collapseAll_isSome T hne rest (fun x hx => h x (by simp [hx]))
    refine ⟨(cb, cc) :: out', ?_⟩
    rw [collapseAll, humis]
    dsimp only
    rw [hcc]
    dsimp only
    rw [hout']

/-- The ordering in which a successfully sorted cell-key list is
ascending: it only constrains keys that are strings. -/
def optLe (a b : Option String) : Prop :=
  ∀ s t, a = some s → b = some t → s ≤ t

theorem filterMap_id_map_some :
    ∀ (ks : List (Option String)), none ∉ ks →
    (ks.filterMap id).map some = ks
  | [], _ => rfl
  | some s :: rest, h => by
    rw [List.filterMap_cons]
    simp only [id]
    rw [List.map_cons,
      filterMap_id_map_some rest (fun hr => h (List.mem_cons_of_mem _ hr))]
  | none :: rest, h => absurd (by simp) h

theorem pySorted_perm (ks cbs : List (Option String))
    (h : pySorted ks = some cbs) : cbs.Perm ks := by
  rw [pySorted] at h
  by_cases hlen : ks.length ≤ 1
  · rw [if_pos hlen] at h
    obtain rfl := Option.some.inj h
    exact List.Perm.refl ks
  · rw [if_neg hlen] at h
    by_cases hn : none ∈ ks
    · rw [if_pos hn] at h
      cases h
    · rw [if_neg hn] at h
      obtain rfl := Option.some.inj h
      have h1 : List.Perm
          (((ks.filterMap id).insertionSort (fun a b => a ≤ b)).map some)
          ((ks.filterMap id).map some) :=
        (List.perm_insertionSort _ _).map some
      rw [filterMap_id_map_some ks hn] at h1
      exact h1

theorem pySorted_sorted (ks cbs : List (Option String))
    (h : pySorted ks = some cbs) : cbs.Sorted optLe := by
  rw [pySorted] at h
  by_cases hlen : ks.length ≤ 1
  · rw [if_pos hlen] at h
    obtain rfl := Option.some.inj h
    match ks, hlen with
    | [], _ => exact List.sorted_nil
    | [x], _ => exact List.sorted_singleton x
  · rw [if_neg hlen] at h
    by_cases hn : none ∈ ks
    · rw [if_pos hn] at h
      cases h
    · rw [if_neg hn] at h
      obtain rfl := Option.some.inj h
      have hs : ((ks.filterMap id).insertionSort
          (fun a b => a ≤ b)).Sorted (fun a b => a ≤ b) :=
        List.sorted_insertionSort _ _
      rw [List.Sorted, List.pairwise_map]
      refine List.Pairwise.imp ?_ hs
      intro a b hab s t hs' ht'
      obtain rfl := Option.some.inj hs'
      obtain rfl := Option.some.inj ht'
      exact hab

theorem two_mem_length {α : Type} {a b : α} :
    ∀ {l : List α}, a ∈ l → b ∈ l → a ≠ b → 2 ≤ l.length
  | [], ha, _, _ => absurd ha (by simp)
  | [x], ha, hb, hne => by
    rw [List.mem_singleton] at ha hb
    exact absurd (ha.trans hb.symm) hne
  | _ :: _ :: _, _, _, _ => by simp

theorem exists_some_of_none_mem (ks : List (Option String))
    (hnd : ks.Nodup) (hlen : 2 ≤ ks.length) (hn : none ∈ ks) :
    ∃ s, some s ∈ ks := by
  rcases ks with _ | ⟨a, rest1⟩
  · exact absurd hn (by simp)
  rcases rest1 with _ | ⟨b, rest⟩
  · exact absurd hlen (by simp)
  cases a with
  | some s => exact ⟨s, by simp⟩
  | none =>
    rw [List.nodup_cons] at hnd
    cases b with
    | none => exact absurd (by simp) hnd.1
    | some s => exact ⟨s, by simp⟩

/-- C10: the collapse pass is total only when the cell keys are mutually
order-comparable: assuming the table's cell keys are distinct and every
bucket is non-empty (as the scan guarantees), collapse returns no result
exactly when the keys contain both `None` and some string; on success
the returned `cell_barcodes` list is a permutation of the table's cell
keys in ascending sorted order. -/
theorem C10_collapse_totality (T : CountTable)
    (hnd : (T.map Prod.fst).Nodup)
    (hne : ∀ p ∈ T, ∀ q ∈ p.2, q.2 ≠ ([] : Bucket)) :
    (collapse T = none ↔
      (none ∈ T.map Prod.fst ∧ ∃ s, some s ∈ T.map Prod.fst)) ∧
    (∀ cbs out, collapse T = some (cbs, out) →
      cbs.Perm (T.map Prod.fst) ∧ cbs.Sorted optLe) := by
  constructor
  · constructor
    · intro h
      cases hps : pySorted (T.map Prod.fst) with
      | none =>
        rw [pySorted] at hps
        by_cases hlen : (T.map Prod.fst).length ≤ 1
        · rw [if_pos hlen] at hps
          cases hps
        · rw [if_neg hlen] at hps
          by_cases hn : none ∈ T.map Prod.fst
          · exact ⟨hn, exists_some_of_none_mem _ hnd (by omega) hn⟩
          · rw [if_neg hn] at hps
            cases hps
      | some cbs =>
        obtain ⟨out, hout⟩ := collapseAll_isSome T hne cbs
          (fun cb hcb => (pySorted_perm _ _ hps).subset hcb)
        rw [collapse, hps] at h
        dsimp only at h
        rw [hout] at h
        dsimp only at h
        cases h
    · rintro ⟨hn, s, hs⟩
      have hlen : ¬ (T.map Prod.fst).length ≤ 1 := by
        have := two_mem_length hn hs (by simp)
        omega
      have hps : pySorted (T.map Prod.fst) = none := by
        rw [pySorted, if_neg hlen, if_pos hn]
      rw [collapse, hps]
  · intro cbs out h
    rw [collapse] at h
    cases hps : pySorted (T.map Prod.fst) with
    | none =>
      rw [hps] at h
      cases h
    | some cbs' =>
      rw [hps] at h
      dsimp only at h
      cases hca : collapseAll T cbs' with
      | none =>
        rw [hca] at h
        cases h
      | some out' =>
        rw [hca] at h
        dsimp only at h
        obtain heq := Option.some.inj h
        obtain ⟨rfl, rfl⟩ := Prod.mk.injEq .. ▸ heq
        exact ⟨pySorted_perm _ _ hps, pySorted_sorted _ _ hps⟩

/-- Witness for C10: a table holding both a `None` cell key and a string
cell key makes the collapse fail. -/
theorem C10_collapse_totality_witness :
    collapse [(none, [(some "u", [(Category.not_aligned, 2)])]),
      (some "A", [(none, [(Category.ambiguous, 1)])])] = none :=
  (C10_collapse_totality
    [(none, [(some "u", [(Category.not_aligned, 2)])]),
      (some "A", [(none, [(Category.ambiguous, 1)])])]
    (by decide) (by decide)).1.2
    ⟨by decide, "A", by decide⟩

/-- C2: on a successfully collapsed table with distinct cell keys, each
`(cell, umi)` bucket contributes exactly one increment, to the category
`most_common(1)` selects — the one with the strictly highest count, ties
broken in favour of the category first inserted in the bucket — and the
per-cell totals of the collapsed table equal the number of UMI buckets
of that cell. -/
theorem C2_umi_collapse (T : CountTable) (cbs : List (Option String))
    (out : List (Option String × Bucket)) (hnd : (T.map Prod.fst).Nodup)
    (hcol : collapse T = some (cbs, out)) (cb : Option String)
    (umis : UmiTable) (hm : (cb, umis) ∈ T) :
    ∃ cc, alookup out cb = some cc ∧ collapseCell umis [] = some cc ∧
      bucketSum cc = umis.length ∧
      ∀ ub b, (ub, b) ∈ umis → ∃ w n l₁ l₂, mostCommon1 b = some w ∧
        b = l₁ ++ (w, n) :: l₂ ∧ (∀ q ∈ l₁, q.2 < n) ∧ ∀ q ∈ b, q.2 ≤ n := by
  rw [collapse] at hcol
  cases hps : pySorted (T.map Prod.fst) with
  | none =>
    rw [hps] at hcol
    cases hcol
  | some cbs' =>
    rw [hps] at hcol
    dsimp only at hcol
    cases hca : collapseAll T cbs' with
    | none =>
      rw [hca] at hcol
      cases hcol
    | some out' =>
      rw [hca] at hcol
      dsimp only at hcol
      obtain heq := Option.some.inj hcol
      obtain ⟨rfl, rfl⟩ := Prod.mk.injEq .. ▸ heq.symm
      have hperm := pySorted_perm _ _ hps
      have hcb : cb ∈ cbs := by
        exact hperm.mem_iff.2 (List.mem_map.2 ⟨(cb, umis), hm, rfl⟩)
      obtain ⟨umis', cc, h1, h2, h3⟩ := collapseAll_mem T cbs out hca cb hcb
      have humis : umis' = umis := by
        have := alookup_eq_of_mem_nodup T cb umis hnd hm
        rw [this] at h1
        exact (Option.some.inj h1).symm
      rw [humis] at h2
      have hkeys : out.map Prod.fst = cbs := collapseAll_keys T cbs out hca
      have hndcbs : cbs.Nodup := hperm.symm.nodup (by exact hnd)
      refine ⟨cc, ?_, h2, ?_, ?_⟩
      · exact alookup_eq_of_mem_nodup out cb cc (by rw [hkeys]; exact hndcbs) h3
      · have := collapseCell_sum umis [] cc h2
        simpa [bucketSum] using this
      · intro ub b hub
        obtain ⟨w, hw⟩ := collapseCell_winners umis [] cc h2 ub b hub
        obtain ⟨n, l₁, l₂, hsplit, hless, hle⟩ := mostCommon1_spec b w hw
        exact ⟨w, n, l₁, l₂, hw, hsplit, hless, hle⟩

/-- Witness for C2, the spec's Scenario D: two categories tie at count 1;
the first inserted (`GeneA`) wins and the cell total equals the single
UMI observed. -/
theorem C2_umi_collapse_witness :
    ∃ cc, alookup [(some "X",
        [(Category.feature "GeneA", 1)])] (some "X") = some cc ∧
      collapseCell [(some "U", [(Category.feature "GeneA", 1),
        (Category.feature "GeneB", 1)])] [] = some cc ∧
      bucketSum cc = 1 ∧
      ∀ ub b, (ub, b) ∈ [(some "U", [(Category.feature "GeneA", 1),
          (Category.feature "GeneB", 1)])] →
        ∃ w n l₁ l₂, mostCommon1 b = some w ∧
          b = l₁ ++ (w, n) :: l₂ ∧ (∀ q ∈ l₁, q.2 < n) ∧ ∀ q ∈ b, q.2 ≤ n := by
  have h := C2_umi_collapse
    [(some "X", [(some "U", [(Category.feature "GeneA", 1),
      (Category.feature "GeneB", 1)])])]
    [some "X"]
    [(some "X", [(Category.feature "GeneA", 1)])]
    (by decide) (by rfl) (some "X")
    [(some "U", [(Category.feature "GeneA", 1),
      (Category.feature "GeneB", 1)])]
    (by decide)
  simpa using h

/-! ### C1: per-(cell, umi) accounting -/

theorem alookup_bumpUmi_self (ub : Option String) (c : Category) :
    ∀ (umis : UmiTable), alookup (bumpUmi ub c umis) ub =
      some (bumpBucket c ((alookup umis ub).getD []))
  | [] => by simp [bumpUmi, alookup]
  | (ub', b) :: rest => by
    by_cases h : ub' = ub
    · subst h
      simp [bumpUmi, alookup]
    · simp [bumpUmi, alookup, h, alookup_bumpUmi_self ub c rest]

theorem alookup_bumpUmi_other (ub ub' : Option String) (hne : ¬ ub = ub')
    (c : Category) :
    ∀ (umis : UmiTable), alookup (bumpUmi ub c umis) ub' = alookup umis ub'
  | [] => by simp [bumpUmi, alookup, hne]
  | (ub'', b) :: rest => by
    by_cases h : ub'' = ub
    · subst h
      simp [bumpUmi, alookup, hne]
    · by_cases h2 : ub'' = ub'
      · subst h2
        simp [bumpUmi, alookup, h]
      · simp [bumpUmi, alookup, h, h2, alookup_bumpUmi_other ub ub' hne c rest]

theorem alookup_bumpTable_self (cb ub : Option String) (c : Category) :
    ∀ (t : CountTable), alookup (bumpTable cb ub c t) cb =
      some (bumpUmi ub c ((alookup t cb).getD []))
  | [] => by simp [bumpTable, alookup]
  | (cb', umis) :: rest => by
    by_cases h : cb' = cb
    · subst h
      simp [bumpTable, alookup]
    · simp [bumpTable, alookup, h, alookup_bumpTable_self cb ub c rest]

theorem alookup_bumpTable_other (cb cb' : Option String) (hne : ¬ cb = cb')
    (ub : Option String) (c : Category) :
    ∀ (t : CountTable), alookup (bumpTable cb ub c t) cb' = alookup t cb'
  | [] => by simp [bumpTable, alookup, hne]
  | (cb'', umis) :: rest => by
    by_cases h : cb'' = cb
    · subst h
      simp [bumpTable, alookup, hne]
    · by_cases h2 : cb'' = cb'
      · subst h2
        simp [bumpTable, alookup, h]
      · simp [bumpTable, alookup, h, h2,
          alookup_bumpTable_other cb cb' hne ub c rest]

theorem tableSum_getD (t : CountTable) (cb ub : Option String) :
    tableSum t cb ub =
      bucketSum ((alookup ((alookup t cb).getD []) ub).getD []) := by
  rw [tableSum]
  cases alookup t cb with
  | none => simp [alookup, bucketSum]
  | some umis =>
    simp only [Option.getD_some]
    cases alookup umis ub with
    | none => simp [bucketSum]
    | some b => simp

theorem tableSum_bump (cb ub cb' ub' : Option String) (c : Category)
    (t : CountTable) :
    tableSum (bumpTable cb ub c t) cb' ub' =
      tableSum t cb' ub' + (if cb = cb' ∧ ub = ub' then 1 else 0) := by
  by_cases hcb : cb = cb'
  · subst hcb
    by_cases hub : ub = ub'
    · subst hub
      rw [tableSum_getD, tableSum_getD, alookup_bumpTable_self,
        Option.getD_some, alookup_bumpUmi_self, Option.getD_some,
        bucketSum_bump]
      simp
    · rw [tableSum_getD, tableSum_getD, alookup_bumpTable_self,
        Option.getD_some, alookup_bumpUmi_other ub ub' hub]
      simp [hub]
  · rw [tableSum_getD, tableSum_getD, alookup_bumpTable_other cb cb' hcb]
    simp [hcb]

theorem tableSum_foldl_bump (cb ub cb' ub' : Option String) :
    ∀ (cats : List Category) (t : CountTable),
    tableSum (cats.foldl (fun acc c => bumpTable cb ub c acc) t) cb' ub' =
      tableSum t cb' ub' + (if cb = cb' ∧ ub = ub' then cats.length else 0)
  | [], t => by simp
  | c :: rest, t => by
    rw [List.foldl_cons, tableSum_foldl_bump cb ub cb' ub' rest _,
      tableSum_bump]
    by_cases h : cb = cb' ∧ ub = ub'
    · simp only [if_pos h, List.length_cons]
      omega
    · simp only [if_neg h]

theorem fsList_length (f : Finset String) : (fsList f).length = f.card :=
  Finset.length_sort _

theorem categoriesOf_none_length (fso : Option (Finset String))
    (cats : List Category) (h : categoriesOf "none" fso = .ok cats) :
    cats.length = 1 := by
  cases fso with
  | none =>
    rw [categoriesOf] at h
    obtain rfl := Except.ok.inj h
    rfl
  | some f =>
    rw [categoriesOf] at h
    by_cases h0 : f.card = 0
    · rw [if_pos h0] at h
      obtain rfl := Except.ok.inj h
      rfl
    · rw [if_neg h0] at h
      simp only [if_pos rfl] at h
      by_cases h1 : f.card = 1
      · rw [if_pos h1] at h
        have hcard : ¬ 1 < f.card := by omega
        rw [if_neg hcard] at h
        obtain rfl := Except.ok.inj h
        simp [fsList_length, h1]
      · have hcard : 1 < f.card := by omega
        rw [if_pos hcard, if_neg h1] at h
        obtain rfl := Except.ok.inj h
        rfl

theorem resolveUnit_none_length (p : Params)
    (hmm : p.multimapped_mode = "none") (idx : FeatureIndex)
    (ivs : List (Option GenomicInterval)) (cats : List Category)
    (h : resolveUnit p idx ivs = .ok cats) : cats.length = 1 := by
  rw [resolveUnit] at h
  cases hro : resolveOverlap p.overlap_mode idx ivs with
  | illegal =>
    rw [hro] at h
    cases h
  | strandError =>
    rw [hro] at h
    cases h
  | unknownChrom =>
    rw [hro] at h
    dsimp only at h
    obtain rfl := Except.ok.inj h
    rfl
  | resolved fso =>
    rw [hro] at h
    dsimp only at h
    rw [hmm] at h
    exact categoriesOf_none_length fso cats h

theorem processSingle_none_length (p : Params)
    (hmm : p.multimapped_mode = "none") (idx : FeatureIndex)
    (r : AlignmentRecord) (cats : List Category)
    (h : processSingle p idx r = .counted cats) : cats.length = 1 := by
  by_cases ha : r.aligned = true
  · by_cases hsec : p.secondary_alignment_mode = "ignore" ∧
        r.not_primary_alignment = true
    · simp [processSingle, ha, hsec] at h
    · by_cases hsup : p.supplementary_alignment_mode = "ignore" ∧
          r.supplementary = true
      · simp [processSingle, ha, hsec, hsup] at h
      · by_cases hnh : nhGt1 r = true
        · simp [processSingle, ha, hsec, hsup, hnh, hmm] at h
          rw [← h]
          rfl
        · by_cases hq : r.aQual < p.minaqual
          · simp [processSingle, ha, hsec, hsup, hnh, hq] at h
            rw [← h]
            rfl
          · cases hres : resolveUnit p idx (singleIvSeq p.stranded r) with
            | error m => simp [processSingle, ha, hsec, hsup, hnh, hq, hres] at h
            | ok cats' =>
              simp [processSingle, ha, hsec, hsup, hnh, hq, hres] at h
              rw [← h]
              exact resolveUnit_none_length p hmm idx _ cats' hres
  · simp [processSingle, ha] at h
    rw [← h]
    rfl

theorem processPair_none_length (p : Params)
    (hmm : p.multimapped_mode = "none") (idx : FeatureIndex)
    (r1 r2 : Option AlignmentRecord) (cats : List Category)
    (h : processPair p idx r1 r2 = .counted cats) : cats.length = 1 := by
  by_cases ha : presAligned r2 = false ∧ presAligned r1 = false
  · simp [processPair, ha] at h
    rw [← h]
    rfl
  · by_cases hsec : p.secondary_alignment_mode = "ignore" ∧
        (presSecondary r1 = true ∨ presSecondary r2 = true)
    · simp [processPair, ha, hsec] at h
    · by_cases hsup : p.supplementary_alignment_mode = "ignore" ∧
          (presSupplementary r1 = true ∨ presSupplementary r2 = true)
      · simp [processPair, ha, hsec, hsup] at h
      · by_cases hnh : pairNH r1 r2 = some true
        · simp [processPair, ha, hsec, hsup, hnh, hmm] at h
          rw [← h]
          rfl
        · by_cases hq : presLowQual p.minaqual r1 = true ∨
              presLowQual p.minaqual r2 = true
          · simp [processPair, ha, hsec, hsup, hnh, hq] at h
            rw [← h]
            rfl
          · cases hres : resolveUnit p idx (pairIvSeq p.stranded r1 r2) with
            | error m =>
              simp [processPair, ha, hsec, hsup, hnh, hq, hres] at h
            | ok cats' =>
              simp [processPair, ha, hsec, hsup, hnh, hq, hres] at h
              rw [← h]
              exact resolveUnit_none_length p hmm idx _ cats' hres

theorem processUnit_none_length (p : Params)
    (hmm : p.multimapped_mode = "none") (idx : FeatureIndex)
    (u : RecordUnit) (cats : List Category)
    (h : processUnit p idx u = .counted cats) : cats.length = 1 := by
  cases u with
  | single r => exact processSingle_none_length p hmm idx r cats h
  | pair r1 r2 => exact processPair_none_length p hmm idx r1 r2 cats h

theorem scan_tableSum (p : Params) (hmm : p.multimapped_mode = "none")
    (idx : FeatureIndex) (cb ub : Option String) :
    ∀ (us : List RecordUnit) (t T : CountTable),
    scan p idx us t = .ok T →
    tableSum T cb ub = tableSum t cb ub +
      us.countP (fun u =>
        decide (identify_barcodes p.cb_tag p.ub_tag u = (cb, ub)) &&
        !(isDroppedB (processUnit p idx u)))
  | [], t, T, h => by
    obtain rfl := Except.ok.inj h
    simp
  | u :: us, t, T, h => by
    rw [scan] at h
    cases hp : processUnit p idx u with
    | dropped =>
      rw [hp] at h
      dsimp only at h
      rw [scan_tableSum p hmm idx cb ub us t T h, List.countP_cons]
      simp [hp, isDroppedB]
    | fatal m =>
      rw [hp] at h
      cases h
    | counted cats =>
      rw [hp] at h
      dsimp only at h
      rw [scan_tableSum p hmm idx cb ub us _ T h, tableSum_foldl_bump,
        List.countP_cons]
      have hlen := processUnit_none_length p hmm idx u cats hp
      by_cases hbc : identify_barcodes p.cb_tag p.ub_tag u = (cb, ub)
      · have hsplit : (identify_barcodes p.cb_tag p.ub_tag u).1 = cb ∧
            (identify_barcodes p.cb_tag p.ub_tag u).2 = ub := by
          rw [hbc]
          exact ⟨rfl, rfl⟩
        rw [if_pos hsplit, hlen]
        simp [hbc, hp, isDroppedB]
        omega
      · have hsplit : ¬ ((identify_barcodes p.cb_tag p.ub_tag u).1 = cb ∧
            (identify_barcodes p.cb_tag p.ub_tag u).2 = ub) := by
          intro hcon
          exact hbc (Prod.ext hcon.1 hcon.2)
        rw [if_neg hsplit]
        simp [hbc]

/-- Counterexample to C1: under multimapped mode `all` a single
multimapped low-quality record receives two increments
(`__alignment_not_unique` and `__too_low_aQual`) in its `(cell, umi)`
bucket, so the bucket sum (2) exceeds the number of non-dropped
RecordUnits carrying that barcode pair (1). -/
theorem C1_counterexample :
    scan ⟨"no", "union", "all", "ignore", "ignore", 10, "CB", "UB"⟩
        ⟨fun _ => true, fun _ => []⟩
        [.single ⟨true, false, false, 3,
          [("CB", "a"), ("UB", "u")], some 2, []⟩] [] =
      .ok [(some "a", [(some "u",
        [(Category.alignment_not_unique, 1),
         (Category.too_low_aQual, 1)])])] ∧
    tableSum [(some "a", [(some "u",
        [(Category.alignment_not_unique, 1),
         (Category.too_low_aQual, 1)])])] (some "a") (some "u") = 2 ∧
    ([RecordUnit.single ⟨true, false, false, 3,
        [("CB", "a"), ("UB", "u")], some 2, []⟩].countP
      (fun u =>
        decide (identify_barcodes "CB" "UB" u = (some "a", some "u")) &&
        !(isDroppedB (processUnit
          ⟨"no", "union", "all", "ignore", "ignore", 10, "CB", "UB"⟩
          ⟨fun _ => true, fun _ => []⟩ u)))) = 1 := by
  refine ⟨by rfl, by rfl, by rfl⟩

/-- C1 amended: under multimapped mode `none` (but not `all`), after a
completed scan the sum over all categories of `CountTable[cell][umi][*]`
equals the number of RecordUnits carrying that `(cell, umi)` that were
not dropped by the secondary/supplementary ignore filters. -/
theorem C1_amended_scan_sum (p : Params) (idx : FeatureIndex)
    (hmm : p.multimapped_mode = "none") (us : List RecordUnit)
    (T : CountTable) (h : scan p idx us [] = .ok T)
    (cb ub : Option String) :
    tableSum T cb ub =
      us.countP (fun u =>
        decide (identify_barcodes p.cb_tag p.ub_tag u = (cb, ub)) &&
        !(isDroppedB (processUnit p idx u))) := by
  have hsum := scan_tableSum p hmm idx cb ub us [] T h
  simpa [tableSum, alookup] using hsum

/-- Witness for C1's amended statement at a concrete stream: one
unaligned record under multimapped mode `none`. -/
theorem C1_amended_scan_sum_witness :
    tableSum [(none, [(none, [(Category.not_aligned, 1)])])] none none =
      ([RecordUnit.single ⟨false, false, false, 30, [], none, []⟩].countP
        (fun u =>
          decide (identify_barcodes "CB" "UB" u = (none, none)) &&
          !(isDroppedB (processUnit
            ⟨"no", "union", "none", "ignore", "ignore", 10, "CB", "UB"⟩
            ⟨fun _ => true, fun _ => []⟩ u)))) :=
  C1_amended_scan_sum
    ⟨"no", "union", "none", "ignore", "ignore", 10, "CB", "UB"⟩
    ⟨fun _ => true, fun _ => []⟩ rfl
    [.single ⟨false, false, false, 30, [], none, []⟩]
    [(none, [(none, [(Category.not_aligned, 1)])])] (by rfl) none none

end HTSeqBC
